import Mathlib

/-!
Verification development for the melody2score transcription pipeline.

The Python sources are embedded shallowly:
* machine floats that only ever hold finite values are modelled as rationals;
* floats that may be NaN or infinite are modelled by a four-constructor sum
  (`PyFloat` for the tempo code, `RFloat` for the frequency code, the latter
  carrying a real number because `librosa.hz_to_midi` takes a logarithm);
* numpy arrays become Lean lists, elementwise numpy operations become `List.map`;
* database rows become structures and a repository state becomes a list of rows.
-/

namespace M2S

/-! ## app/audio/quantize.py -/

/-- Embedding of `np.round`: round half to even (banker's rounding), the rounding mode numpy
uses in `quantize_beats`. -/
def roundEven (q : ℚ) : ℤ :=
  let n : ℤ := ⌊q⌋
  let f : ℚ := q - n
  if f < 1 / 2 then n
  else if 1 / 2 < f then n + 1
  else if n % 2 = 0 then n else n + 1

/-- Embedding of `times_to_beats(times, tempo_bpm)`: for non-positive tempo the source logs a
warning and returns the input array unchanged; otherwise it divides every time
by `seconds_per_beat = 60 / tempo_bpm`. -/
def times_to_beats (times : List ℚ) (tempo_bpm : ℚ) : List ℚ :=
  if times = [] then times
  else if tempo_bpm ≤ 0 then times
  else times.map (fun t => t / (60 / tempo_bpm))

/-- Embedding of `quantize_beats(beat_positions, grid)`: for non-positive grid the source
logs a warning and returns the input unchanged; otherwise it snaps every beat
with `np.round(beat / grid) * grid`. -/
def quantize_beats (beat_positions : List ℚ) (grid : ℚ) : List ℚ :=
  if beat_positions = [] then beat_positions
  else if grid ≤ 0 then beat_positions
  else beat_positions.map (fun b => (roundEven (b / grid) : ℚ) * grid)

/-- Embedding of `collapse_short_notes(onsets, durations, min_duration)`: keeps the entries
whose duration is at least `min_duration` (numpy boolean-mask filtering of two
equal-length arrays, modelled by filtering the zipped list). -/
def collapse_short_notes (onsets durations : List ℚ) (min_duration : ℚ) :
    List ℚ × List ℚ :=
  if onsets = [] then (onsets, durations)
  else if (onsets.zip durations).filter (fun p => min_duration ≤ p.2) = [] then
    ([], [])
  else
    (((onsets.zip durations).filter (fun p => min_duration ≤ p.2)).map Prod.fst,
      ((onsets.zip durations).filter (fun p => min_duration ≤ p.2)).map Prod.snd)

/-- Embedding of `np.diff`: successive differences. -/
def diffs : List ℚ → List ℚ
  | [] => []
  | [_] => []
  | a :: b :: rest => (b - a) :: diffs (b :: rest)

/-- Embedding of `quantize_rhythm(times, tempo_bpm, grid, min_note_duration)`: converts the
times to beats, snaps them to the grid, computes durations as the differences
between consecutive snapped beats with the final event given one grid unit, and
drops events shorter than the minimum duration.  The source never calls
`insert_rests` here. -/
def quantize_rhythm (times : List ℚ) (tempo_bpm grid min_note_duration : ℚ) :
    List ℚ × List ℚ :=
  if times = [] then ([], [])
  else
    let beats := times_to_beats times tempo_bpm
    let qb := quantize_beats beats grid
    let durs := if 1 < qb.length then diffs qb ++ [grid] else [grid]
    collapse_short_notes qb durs min_note_duration

/-- The loop body of `insert_rests`: walks the events in order keeping a
`current_time`, emitting a rest before any event that starts strictly later,
and returns the events together with the final `current_time`. -/
def restLoop : List (ℚ × ℚ) → ℚ → List (ℚ × ℚ) × ℚ
  | [], cur => ([], cur)
  | (o, d) :: rest, cur =>
    let tail := restLoop rest (o + d)
    if cur < o then ((cur, o - cur) :: (o, d) :: tail.1, tail.2)
    else ((o, d) :: tail.1, tail.2)

/-- The gap-filling pass of `insert_rests` on the already-sorted events: the
loop starting at `current_time = 0`, followed by the final rest appended when
`current_time < total_duration`. -/
def fillRests (evs : List (ℚ × ℚ)) (total : ℚ) : List (ℚ × ℚ) :=
  if (restLoop evs 0).2 < total then
    (restLoop evs 0).1 ++ [((restLoop evs 0).2, total - (restLoop evs 0).2)]
  else (restLoop evs 0).1

/-- Embedding of `insert_rests(onsets, durations, total_duration)`: empty input yields the
single event `(0, total_duration)`; otherwise the events are sorted by onset
(`np.argsort`), gaps are filled by the loop, and a final rest is appended when
`current_time < total_duration`. -/
def insert_rests (onsets durations : List ℚ) (total_duration : ℚ) :
    List ℚ × List ℚ :=
  if onsets = [] then ([0], [total_duration])
  else
    ((fillRests (List.insertionSort (fun p q : ℚ × ℚ => p.1 ≤ q.1)
        (onsets.zip durations)) total_duration).map Prod.fst,
      (fillRests (List.insertionSort (fun p q : ℚ × ℚ => p.1 ≤ q.1)
        (onsets.zip durations)) total_duration).map Prod.snd)

/-- Sorted-and-non-overlapping check for an event list, threading the end of
the previous event: every onset is at least the running position. -/
def okFrom : ℚ → List (ℚ × ℚ) → Bool
  | _, [] => true
  | cur, (o, d) :: rest => decide (cur ≤ o) && okFrom (o + d) rest

/-- Gapless-chain check: every onset equals the running position exactly. -/
def contiguousFrom : ℚ → List (ℚ × ℚ) → Bool
  | _, [] => true
  | cur, (o, d) :: rest => decide (o = cur) && contiguousFrom (o + d) rest

/-- End of the last event of the list, or the running position if empty. -/
def endAfter : ℚ → List (ℚ × ℚ) → ℚ
  | cur, [] => cur
  | _, (o, d) :: rest => endAfter (o + d) rest

/-- The §3 NoteEvent-sequence invariant claimed by the spec for quantizer
output: contiguous from onset 0 and covering exactly `[0, total]`. -/
def gapless (events : List (ℚ × ℚ)) (total : ℚ) : Bool :=
  contiguousFrom 0 events && decide (endAfter 0 events = total)

/-- The tempo value returned by the librosa backend inside `estimate_tempo`,
as IEEE semantics require: possibly NaN or infinite.  (The scalar case of the
backend result; the source also unwraps a one-element array, which changes
nothing about the validation that follows.) -/
inductive PyFloat where
  | fin : ℚ → PyFloat
  | nan : PyFloat
  | inf : PyFloat
  | ninf : PyFloat
deriving DecidableEq

/-- IEEE comparison `tempo <= 0` (false for NaN). -/
def pyLeZero : PyFloat → Bool
  | .fin q => decide (q ≤ 0)
  | .nan => false
  | .inf => false
  | .ninf => true

/-- IEEE comparison `tempo > 300` (false for NaN). -/
def pyGt300 : PyFloat → Bool
  | .fin q => decide (300 < q)
  | .nan => false
  | .inf => true
  | .ninf => false

/-- Embedding of `estimate_tempo(y, sr, ..., start_bpm, ...)`: an empty signal returns the
literal 120.0; a raising backend (`none`) returns the literal 120.0 from the
`except` branch; otherwise the backend value is replaced by `start_bpm` when
`tempo <= 0 or tempo > 300` and returned unchanged when not. -/
def estimate_tempo (signal_len : ℕ) (backend : Option PyFloat)
    (start_bpm : ℚ) : PyFloat :=
  if signal_len = 0 then .fin 120
  else
    match backend with
    | none => .fin 120
    | some t => if pyLeZero t || pyGt300 t then .fin start_bpm else t

/-- The spec-side range requirement on a returned tempo: a finite value
strictly inside `(0, 300]`. -/
def tempoInRange : PyFloat → Bool
  | .fin q => decide (0 < q) && decide (q ≤ 300)
  | _ => false

/-! ## app/db/models.py and app/db/repository.py, app/tasks/utils.py -/

/-- The five job states of the `jobs.status` column. -/
inductive JobStatus where
  | queued | running | done | failed | cancelled
deriving DecidableEq

/-- The mutable fields of a job row that the control operations touch. -/
structure Job where
  status : JobStatus
  progress : ℤ
  error : Option String
deriving DecidableEq

/-- Embedding of `cancel_job(job_id)` from app/tasks/utils.py: missing job is rejected; a
job whose status is not `queued` or `running` is rejected and left unchanged;
otherwise `update_job_status(job_id, status="cancelled",
error="Job cancelled by user")` is issued and `True` is returned. -/
def cancel_job : Option Job → Bool × Option Job
  | none => (false, none)
  | some j =>
    if j.status = .queued ∨ j.status = .running then
      (true, some { j with status := .cancelled,
                           error := some "Job cancelled by user" })
    else (false, some j)

/-- Embedding of `retry_failed_job(job_id)`: missing job rejected; status other than
`failed` rejected; missing upload (`uploadExists = false`) rejected; otherwise
`update_job_status(job_id, status="queued", progress=0, error=None)`. -/
def retry_failed_job (uploadExists : Bool) : Option Job → Bool × Option Job
  | none => (false, none)
  | some j =>
    if j.status = .failed then
      if uploadExists then
        (true, some { j with status := .queued, progress := 0, error := none })
      else (false, some j)
    else (false, some j)

/-- The transition set asserted by the claim (spec §4.1/§8), written from the
spec words for comparison with the code's behaviour. -/
def claimedTransition : JobStatus → JobStatus → Bool
  | .queued, .running => true
  | .running, .done => true
  | .running, .failed => true
  | .running, .cancelled => true
  | .failed, .queued => true
  | _, _ => false

/-- One row of the `artifacts` table (id order = insertion order of the list
holding the state). -/
structure ArtifactRow where
  job_id : ℤ
  kind : String
  path : String
deriving DecidableEq

/-- The WHERE clause of `get_artifact_by_kind`. -/
def artifactMatches (j : ℤ) (k : String) (a : ArtifactRow) : Bool :=
  decide (a.job_id = j) && decide (a.kind = k)

/-- Embedding of `add_artifact(job_id, kind, path)`: unconditionally INSERTs a new row;
there is no uniqueness constraint on `(job_id, kind)` in app/db/models.py and
no delete or update of an existing row. -/
def add_artifact (s : List ArtifactRow) (j : ℤ) (k p : String) :
    List ArtifactRow :=
  s ++ [⟨j, k, p⟩]

/-- Embedding of `get_artifact_by_kind(job_id, kind)`: a filter query followed by
`.first()` with no ORDER BY; modelled as the first matching row in insertion
order. -/
def get_artifact_by_kind (s : List ArtifactRow) (j : ℤ) (k : String) :
    Option ArtifactRow :=
  (s.filter (artifactMatches j k)).head?

/-- Number of stored artifacts of one kind for one job. -/
def artifact_count (s : List ArtifactRow) (j : ℤ) (k : String) : ℕ :=
  (s.filter (artifactMatches j k)).length

/-! ## app/audio/notation.py -/

/-- One element appended to the music21 part by `build_score`: a rest or a
pitched note, each carrying the quarter-length finally assigned. -/
inductive ScoreElem where
  | restE : ℚ → ScoreElem
  | noteE : ℤ → ℚ → ScoreElem
deriving DecidableEq

/-- The duration finally set on an element: `duration.Duration(quarterLength=
db)` is an external music21 call that raises on a negative quarter length, in
which case the source substitutes 1.0. -/
def durationOf (db : ℚ) : ℚ := if 0 ≤ db then db else 1

/-- Whether `note.Note(mp)` succeeds; the constructor is an external music21
call, modelled from the spec's "unrepresentable pitch" wording: a MIDI number
beyond 127 raises and the source degrades the event to a rest. -/
def noteRepresentable (mp : ℤ) : Bool := decide (mp ≤ 127)

/-- The per-event body of the `build_score` loop: `mp <= 0 or db <= 0` gives a
rest; otherwise a note, degraded to a rest when the pitch is unrepresentable;
either way the duration is set with the 1.0 fallback. -/
def mkScoreElem (mp : ℤ) (db : ℚ) : ScoreElem :=
  if mp ≤ 0 ∨ db ≤ 0 then .restE (durationOf db)
  else if noteRepresentable mp then .noteE mp (durationOf db)
  else .restE (durationOf db)

/-- Embedding of `build_score(midi_pitches, onset_beats, dur_beats, ...)`: any empty input
array yields an empty score; mismatched array lengths are logged as an error
and yield an empty score (no recovery); otherwise each pitch/duration pair is
appended in order (the onsets are not used for element construction — the
part is appended sequentially in the source). -/
def build_score (midi_pitches : List ℤ) (onset_beats dur_beats : List ℚ) :
    List ScoreElem :=
  if midi_pitches = [] ∨ onset_beats = [] ∨ dur_beats = [] then []
  else if midi_pitches.length ≠ onset_beats.length ∨
      midi_pitches.length ≠ dur_beats.length then []
  else (midi_pitches.zip dur_beats).map (fun p => mkScoreElem p.1 p.2)

/-- Input floats of `f0_to_midi`: frequencies may in principle be NaN or
infinite, and the intermediate midi value is a real number because
`librosa.hz_to_midi` takes a base-2 logarithm. -/
inductive RFloat where
  | fin : ℝ → RFloat
  | nan : RFloat
  | inf : RFloat
  | ninf : RFloat

/-- Embedding of `np.isfinite` as a Bool. -/
def RFloat.isFiniteB : RFloat → Bool
  | .fin _ => true
  | _ => false

/-- Embedding of `np.maximum(c, x)` for a finite positive constant `c` (NaN propagates,
`max(c, inf) = inf`, `max(c, -inf) = c`). -/
def rmaxC (c : ℝ) : RFloat → RFloat
  | .fin x => .fin (max c x)
  | .nan => .nan
  | .inf => .inf
  | .ninf => .fin c

/-- Embedding of `librosa.hz_to_midi(f) = 12 * (log2(f) - log2(440)) + 69`, with
`log2(0) = -inf` and `log2` of a negative number NaN. -/
noncomputable def hz_to_midi_val : RFloat → RFloat
  | .fin x =>
    if 0 < x then .fin (12 * (Real.logb 2 x - Real.logb 2 440) + 69)
    else if x = 0 then .ninf else .nan
  | .nan => .nan
  | .inf => .inf
  | .ninf => .nan

/-- Embedding of `np.where(np.isfinite(midi), midi, 0.0)`. -/
def whereFinite : RFloat → ℝ
  | .fin x => x
  | _ => 0

/-- One element of `f0_to_midi`: maximum with 1e-6, hz→midi, non-finite→0,
clip to [0,127], cast to int (truncation = floor on the non-negative clipped
value). -/
noncomputable def f0ToMidiOne (v : RFloat) : ℤ :=
  ⌊min 127 (max 0 (whereFinite (hz_to_midi_val (rmaxC (1 / 1000000) v))))⌋

/-- Embedding of `f0_to_midi(f0_hz)`: empty list maps to empty list; on success the
elementwise conversion is applied; the `except` branch (`ok = false`) returns
a list of zeros of the same length. -/
noncomputable def f0_to_midi (ok : Bool) (l : List RFloat) : List ℤ :=
  match l with
  | [] => []
  | _ => if ok then l.map f0ToMidiOne else l.map (fun _ => (0 : ℤ))

/-! ### Basic lemmas about the quantize embedding -/

theorem roundEven_intCast (k : ℤ) : roundEven (k : ℚ) = k := by
  simp [roundEven]

/-- Claim C9: for every grid `g > 0` and every array of beat positions,
applying the grid snap `quantize_beats` twice with the same `g` yields the
same output as applying it once. -/
theorem quantize_beats_idem (bs : List ℚ) (g : ℚ) (hg : 0 < g) :
    quantize_beats (quantize_beats bs g) g = quantize_beats bs g := by
  rcases eq_or_ne bs [] with rfl | hne
  · simp [quantize_beats]
  · have hgle : ¬ g ≤ 0 := not_le.mpr hg
    have h1 : quantize_beats bs g =
        bs.map (fun b => (roundEven (b / g) : ℚ) * g) := by
      simp [quantize_beats, hne, hgle]
    have hne2 : bs.map (fun b => (roundEven (b / g) : ℚ) * g) ≠ [] := by
      simpa using hne
    rw [h1]
    simp only [quantize_beats, hne2, if_neg, hgle, if_false, List.map_map]
    apply List.map_congr_left
    intro b _
    have hg0 : g ≠ 0 := ne_of_gt hg
    simp [Function.comp, mul_div_cancel_right₀ _ hg0, roundEven_intCast]

/-- Witness for C9 at grid 1/4 and beat list [3/8]. -/
theorem quantize_beats_idem_witness :
    (0 : ℚ) < 1 / 4 ∧
    quantize_beats (quantize_beats [3 / 8] (1 / 4)) (1 / 4) =
      quantize_beats [3 / 8] (1 / 4) :=
  ⟨by norm_num, quantize_beats_idem [3 / 8] (1 / 4) (by norm_num)⟩

/-- Claim C1 (evaluation at the failing input): `quantize_rhythm` never calls
`insert_rests`, so for the contour with times 0 s, 1.75 s, 2 s at 60 BPM,
grid 1/4 and minimum duration 1/2 the result is the single event
`(0, 7/4)`: the gap from beat 7/4 to beat 2 carries no REST event and the
total span differs from the contour duration rounded to the grid (2 beats). -/
theorem quantize_rhythm_leaves_gap :
    quantize_rhythm [0, 7 / 4, 2] 60 (1 / 4) (1 / 2) = ([0], [7 / 4]) ∧
    gapless
      ((quantize_rhythm [0, 7 / 4, 2] 60 (1 / 4) (1 / 2)).1.zip
        (quantize_rhythm [0, 7 / 4, 2] 60 (1 / 4) (1 / 2)).2)
      ((roundEven ((2 / (60 / 60)) / (1 / 4)) : ℚ) * (1 / 4)) = false := by
  have h : quantize_rhythm [0, 7 / 4, 2] 60 (1 / 4) (1 / 2) = ([0], [7 / 4]) := by
    norm_num [quantize_rhythm, times_to_beats, quantize_beats, roundEven,
      collapse_short_notes, diffs]
    simp
  refine ⟨h, ?_⟩
  rw [h]
  norm_num [gapless, contiguousFrom, endAfter, roundEven]

/-- Claim C2 (counterexample): with tempo 0 the time→beat conversion and with
grid 0 the grid snap both return the input array unchanged as an ordinary
result — the stage does not fail with a configuration error. -/
theorem nonpositive_config_passthrough_cex :
    times_to_beats [1] 0 = [1] ∧ quantize_beats [1] 0 = [1] := by
  constructor <;> simp [times_to_beats, quantize_beats]

/-- Claim C2 (amended): a non-positive tempo or grid is not an error — the
source logs a warning and returns the input array unchanged — and a
non-positive minimum duration filters nothing out of non-negative
durations. -/
theorem nonpositive_config_passthrough (xs onsets durs : List ℚ) (t g m : ℚ) :
    (t ≤ 0 → times_to_beats xs t = xs) ∧
    (g ≤ 0 → quantize_beats xs g = xs) ∧
    (m ≤ 0 → onsets.length = durs.length → (∀ d ∈ durs, 0 ≤ d) →
      collapse_short_notes onsets durs m = (onsets, durs)) := by
  refine ⟨fun ht => ?_, fun hgle => ?_, fun hm hlen hd => ?_⟩
  · rcases eq_or_ne xs [] with rfl | hne
    · simp [times_to_beats]
    · simp [times_to_beats, hne, ht]
  · rcases eq_or_ne xs [] with rfl | hne
    · simp [quantize_beats]
    · simp [quantize_beats, hne, hgle]
  · rcases eq_or_ne onsets [] with rfl | hne
    · simp [collapse_short_notes]
    · have hall : (onsets.zip durs).filter (fun p => decide (m ≤ p.2)) =
          onsets.zip durs := by
        apply List.filter_eq_self.mpr
        intro p hp
        have h2 : p.2 ∈ durs := (List.of_mem_zip hp).2
        exact decide_eq_true (le_trans hm (hd _ h2))
      have hzip : onsets.zip durs ≠ [] := by
        cases onsets with
        | nil => exact absurd rfl hne
        | cons a as =>
          cases durs with
          | nil => simp at hlen
          | cons b bs => simp [List.zip]
      simp only [collapse_short_notes]
      rw [if_neg hne, hall, if_neg hzip,
        List.map_fst_zip _ _ (le_of_eq hlen),
        List.map_snd_zip _ _ (le_of_eq hlen.symm)]

/-- Witness for C2 (amended) at tempo 0, grid 0, minimum duration 0. -/
theorem nonpositive_config_passthrough_witness :
    (0 : ℚ) ≤ 0 ∧ times_to_beats [1] 0 = [1] ∧ quantize_beats [1] 0 = [1] ∧
    collapse_short_notes [1] [1] 0 = ([1], [1]) :=
  ⟨le_rfl, (nonpositive_config_passthrough [1] [1] [1] 0 0 0).1 le_rfl,
    (nonpositive_config_passthrough [1] [1] [1] 0 0 0).2.1 le_rfl,
    (nonpositive_config_passthrough [1] [1] [1] 0 0 0).2.2 le_rfl rfl
      (by simp)⟩

/-- Claim C3 (counterexample): cancelling a queued job succeeds but records
the error message "Job cancelled by user" on the job — the error field does
not stay empty. -/
theorem cancel_job_records_error_cex :
    (cancel_job (some ⟨.queued, 0, none⟩)).1 = true ∧
    (cancel_job (some ⟨.queued, 0, none⟩)).2.bind Job.error =
      some "Job cancelled by user" := by
  constructor <;> rfl

/-- Claim C3 (amended): a successful cancel of a queued or running job moves
it to the terminal state `cancelled` and records the error message
"Job cancelled by user" (the error field is set, not left empty). -/
theorem cancel_job_spec (j : Job) :
    (j.status = .queued ∨ j.status = .running →
      cancel_job (some j) =
        (true, some { j with status := .cancelled,
                             error := some "Job cancelled by user" })) ∧
    (¬(j.status = .queued ∨ j.status = .running) →
      cancel_job (some j) = (false, some j)) := by
  constructor <;> intro h <;> simp [cancel_job, h]

/-- Witness for C3 (amended) at a running job. -/
theorem cancel_job_spec_witness :
    ((⟨.running, 40, none⟩ : Job).status = .queued ∨
      (⟨.running, 40, none⟩ : Job).status = .running) ∧
    cancel_job (some ⟨.running, 40, none⟩) =
      (true, some ⟨.cancelled, 40, some "Job cancelled by user"⟩) :=
  ⟨Or.inr rfl, (cancel_job_spec ⟨.running, 40, none⟩).1 (Or.inr rfl)⟩

/-- Claim C4 (counterexample): a NaN backend tempo fails both of the checks
`tempo <= 0` and `tempo > 300`, so `estimate_tempo` returns NaN — neither a
value in `(0, 300]` nor the 120 BPM default. -/
theorem estimate_tempo_nan_cex :
    estimate_tempo 100 (some .nan) 120 = .nan ∧
    tempoInRange (estimate_tempo 100 (some .nan) 120) = false ∧
    estimate_tempo 100 (some .nan) 120 ≠ .fin 120 := by
  refine ⟨rfl, rfl, ?_⟩
  intro h
  simp [estimate_tempo, pyLeZero, pyGt300] at h

/-- Claim C4 (amended): the tempo estimator returns a value in `(0, 300]` —
an empty signal, a raising backend, an infinite backend value and a finite
backend value outside the range all produce the 120 BPM default — except
that a NaN backend value is returned unchanged, NaN escaping the
`tempo <= 0 or tempo > 300` validation. -/
theorem estimate_tempo_range_or_nan (n : ℕ) (b : Option PyFloat) :
    tempoInRange (estimate_tempo n b 120) = true ∨
    (b = some .nan ∧ n ≠ 0 ∧ estimate_tempo n b 120 = .nan) := by
  by_cases hn : n = 0
  · left
    norm_num [estimate_tempo, hn, tempoInRange]
  · cases b with
    | none => left; norm_num [estimate_tempo, hn, tempoInRange]
    | some t =>
      cases t with
      | fin q =>
        left
        by_cases hq : q ≤ 0
        · norm_num [estimate_tempo, hn, pyLeZero, pyGt300, hq, tempoInRange]
        · by_cases hq2 : 300 < q
          · norm_num [estimate_tempo, hn, pyLeZero, pyGt300, hq, hq2,
              tempoInRange]
          · simp [estimate_tempo, hn, pyLeZero, pyGt300, hq, hq2, tempoInRange,
              lt_of_not_le hq, le_of_not_lt hq2]
      | nan =>
        right
        exact ⟨rfl, hn, by simp [estimate_tempo, hn, pyLeZero, pyGt300]⟩
      | inf => left; norm_num [estimate_tempo, hn, pyLeZero, pyGt300, tempoInRange]
      | ninf => left; norm_num [estimate_tempo, hn, pyLeZero, pyGt300, tempoInRange]

/-- Claim C5 (counterexample): cancelling a queued job succeeds and moves it
straight to `cancelled`, a transition outside the claimed set
`queued→running, running→done, running→failed, running→cancelled,
failed→queued`. -/
theorem cancel_from_queued_cex :
    (cancel_job (some ⟨.queued, 0, none⟩)).1 = true ∧
    (cancel_job (some ⟨.queued, 0, none⟩)).2.map Job.status =
      some .cancelled ∧
    claimedTransition .queued .cancelled = false := by
  refine ⟨rfl, rfl, rfl⟩

/-- Claim C5 (amended): the job-control operations enforce: cancel succeeds
exactly from `queued` or `running` and moves the job to `cancelled` (so
`queued→cancelled` is also a permitted transition, beyond the claimed set);
retry succeeds exactly from `failed` (given the upload record exists) and
moves the job to `queued` with progress 0 and the error cleared; any other
cancel/retry request is rejected and leaves the job unchanged.  The
underlying `update_job_status` itself performs no transition validation. -/
theorem job_control_transitions (j : Job) (u : Bool) :
    (j.status = .queued ∨ j.status = .running →
      cancel_job (some j) =
        (true, some { j with status := .cancelled,
                             error := some "Job cancelled by user" })) ∧
    (¬(j.status = .queued ∨ j.status = .running) →
      cancel_job (some j) = (false, some j)) ∧
    (j.status = .failed →
      retry_failed_job true (some j) =
        (true, some { j with status := .queued, progress := 0,
                             error := none })) ∧
    (j.status ≠ .failed → retry_failed_job u (some j) = (false, some j)) := by
  refine ⟨fun h => ?_, fun h => ?_, fun h => ?_, fun h => ?_⟩ <;>
    simp [cancel_job, retry_failed_job, h]

/-- Witness for C5 (amended) at a failed job: retry succeeds, cancel is
rejected. -/
theorem job_control_transitions_witness :
    (⟨.failed, 70, some "stage error"⟩ : Job).status = .failed ∧
    retry_failed_job true (some ⟨.failed, 70, some "stage error"⟩) =
      (true, some ⟨.queued, 0, none⟩) ∧
    ¬((⟨.failed, 70, some "stage error"⟩ : Job).status = .queued ∨
      (⟨.failed, 70, some "stage error"⟩ : Job).status = .running) ∧
    cancel_job (some ⟨.failed, 70, some "stage error"⟩) =
      (false, some ⟨.failed, 70, some "stage error"⟩) :=
  ⟨rfl, (job_control_transitions ⟨.failed, 70, some "stage error"⟩ true).2.2.1 rfl,
    by simp,
    (job_control_transitions ⟨.failed, 70, some "stage error"⟩ true).2.1 (by simp)⟩

/-- Claim C6 (counterexample): two `add_artifact` calls of the same kind for
the same job leave two stored artifacts of that kind, and
`get_artifact_by_kind` returns the earlier one, not the later. -/
theorem add_artifact_duplicate_kind_cex :
    artifact_count
      (add_artifact (add_artifact [] 1 "musicxml" "a") 1 "musicxml" "b")
      1 "musicxml" = 2 ∧
    get_artifact_by_kind
      (add_artifact (add_artifact [] 1 "musicxml" "a") 1 "musicxml" "b")
      1 "musicxml" = some ⟨1, "musicxml", "a"⟩ := by
  constructor <;> rfl

/-- Claim C6 (amended): `add_artifact` unconditionally appends a new row, so
a re-run adds a second artifact of the same kind rather than replacing the
first, and `get_artifact_by_kind` keeps returning the earliest stored row of
that kind (first write wins). -/
theorem add_artifact_append_spec (s : List ArtifactRow) (j : ℤ) (k p : String) :
    add_artifact s j k p = s ++ [⟨j, k, p⟩] ∧
    artifact_count (add_artifact s j k p) j k = artifact_count s j k + 1 ∧
    get_artifact_by_kind (add_artifact s j k p) j k =
      some ((get_artifact_by_kind s j k).getD ⟨j, k, p⟩) := by
  refine ⟨rfl, ?_, ?_⟩
  · unfold artifact_count add_artifact
    rw [List.filter_append]
    simp [artifactMatches]
  · unfold get_artifact_by_kind add_artifact
    rw [List.filter_append]
    have hm : (List.filter (artifactMatches j k) [⟨j, k, p⟩]) =
        [(⟨j, k, p⟩ : ArtifactRow)] := by
      simp [artifactMatches]
    rw [hm]
    cases s.filter (artifactMatches j k) with
    | nil => rfl
    | cons a t => rfl

theorem mkScoreElem_malformed (mp : ℤ) (db : ℚ)
    (h : mp ≤ 0 ∨ 127 < mp ∨ db ≤ 0) :
    ∃ q, mkScoreElem mp db = .restE q := by
  unfold mkScoreElem
  by_cases h1 : mp ≤ 0 ∨ db ≤ 0
  · exact ⟨durationOf db, if_pos h1⟩
  · rw [if_neg h1]
    have h127 : 127 < mp := by
      rcases h with h | h | h
      · exact absurd (Or.inl h) h1
      · exact h
      · exact absurd (Or.inr h) h1
    have : noteRepresentable mp = false := by
      simp [noteRepresentable, not_le.mpr h127]
    rw [this]
    exact ⟨durationOf db, rfl⟩

/-- Claim C7: `build_score` handles a malformed individual event
(non-positive pitch, unrepresentable pitch, or non-positive duration) by
degrading that event to a rest while the remaining events are still
assembled (the output keeps one element per input event), whereas mismatched
input-array lengths abort assembly with an empty score (no recovery). -/
theorem build_score_degrade_policy (ps : List ℤ) (os ds : List ℚ) :
    (ps ≠ [] → os ≠ [] → ds ≠ [] →
      ps.length ≠ os.length ∨ ps.length ≠ ds.length →
      build_score ps os ds = []) ∧
    (ps.length = os.length → ps.length = ds.length → ps ≠ [] →
      (build_score ps os ds).length = ps.length) ∧
    (ps.length = os.length → ps.length = ds.length →
      ∀ i a b, ps.get? i = some a → ds.get? i = some b →
        (a ≤ 0 ∨ 127 < a ∨ b ≤ 0) →
        ∃ q, (build_score ps os ds).get? i = some (.restE q)) := by
  refine ⟨fun hp ho hd hmis => ?_, fun h1 h2 hp => ?_, fun h1 h2 i a b ha hb hmal => ?_⟩
  · simp only [build_score]
    rw [if_neg (by simp [hp, ho, hd]), if_pos hmis]
  · have hmis : ¬(ps.length ≠ os.length ∨ ps.length ≠ ds.length) :=
      not_or.mpr ⟨not_not_intro h1, not_not_intro h2⟩
    have hne : ¬(ps = [] ∨ os = [] ∨ ds = []) := by
      refine not_or.mpr ⟨hp, not_or.mpr ⟨?_, ?_⟩⟩
      · intro h; rw [h] at h1; simp at h1; exact hp h1
      · intro h; rw [h] at h2; simp at h2; exact hp h2
    simp only [build_score]
    rw [if_neg hne, if_neg hmis, List.length_map, List.length_zip, ← h2,
      min_self]
  · have hine : ps ≠ [] := by
      intro h; rw [h] at ha; simp at ha
    have hmis : ¬(ps.length ≠ os.length ∨ ps.length ≠ ds.length) :=
      not_or.mpr ⟨not_not_intro h1, not_not_intro h2⟩
    have hne : ¬(ps = [] ∨ os = [] ∨ ds = []) := by
      refine not_or.mpr ⟨hine, not_or.mpr ⟨?_, ?_⟩⟩
      · intro h; rw [h] at h1; simp at h1; exact hine h1
      · intro h; rw [h] at h2; simp at h2; exact hine h2
    simp only [build_score, if_neg hne, if_neg hmis]
    rw [List.get?_map]
    have hz : (ps.zip ds).get? i = some (a, b) :=
      (List.get?_zip_eq_some _ _ _ _).mpr ⟨ha, hb⟩
    rw [hz]
    obtain ⟨q, hq⟩ := mkScoreElem_malformed a b hmal
    exact ⟨q, by simp [hq]⟩

/-- Witness for C7: a pitch of 200 (above the MIDI range) becomes a rest
while the other event survives, and a length mismatch yields an empty
score. -/
theorem build_score_degrade_policy_witness :
    ([60, 200] : List ℤ).length = ([0, 1] : List ℚ).length ∧
    ([60, 200] : List ℤ).length = ([1, 1] : List ℚ).length ∧
    (∃ q, (build_score [60, 200] [0, 1] [1, 1]).get? 1 =
      some (.restE q)) ∧
    build_score [60] [0, 1] [1] = [] :=
  ⟨rfl, rfl,
    (build_score_degrade_policy [60, 200] [0, 1] [1, 1]).2.2 rfl rfl
      1 200 1 rfl rfl (Or.inr (Or.inl (by norm_num))),
    (build_score_degrade_policy [60] [0, 1] [1]).1 (by simp) (by simp)
      (by simp) (Or.inl (by simp))⟩

theorem hzToMidi_eps_nonpos :
    12 * (Real.logb 2 (1 / 1000000) - Real.logb 2 440) + 69 ≤ 0 := by
  have h1 : Real.logb 2 (1 / 1000000 : ℝ) ≤ 0 :=
    Real.logb_nonpos (by norm_num) (by norm_num) (by norm_num)
  have h2 : (8 : ℝ) ≤ Real.logb 2 440 := by
    rw [Real.le_logb_iff_rpow_le (by norm_num) (by norm_num)]
    have h3 : (2 : ℝ) ^ (8 : ℝ) = (2 : ℝ) ^ (8 : ℕ) := by
      rw [show ((8 : ℝ)) = ((8 : ℕ) : ℝ) by norm_num, Real.rpow_natCast]
    rw [h3]
    norm_num
  linarith

theorem floor_clip_bounds (x : ℝ) :
    0 ≤ ⌊min (127 : ℝ) (max 0 x)⌋ ∧ ⌊min (127 : ℝ) (max 0 x)⌋ ≤ 127 := by
  constructor
  · refine Int.le_floor.mpr ?_
    push_cast
    exact le_min (by norm_num) (le_max_left 0 x)
  · have h : min (127 : ℝ) (max 0 x) ≤ ((127 : ℤ) : ℝ) := by
      push_cast
      exact min_le_left _ _
    calc ⌊min (127 : ℝ) (max 0 x)⌋ ≤ ⌊((127 : ℤ) : ℝ)⌋ := Int.floor_le_floor h
      _ = 127 := Int.floor_intCast 127

theorem f0ToMidiOne_bounds (v : RFloat) :
    0 ≤ f0ToMidiOne v ∧ f0ToMidiOne v ≤ 127 := by
  unfold f0ToMidiOne
  exact floor_clip_bounds _

theorem f0ToMidiOne_eps :
    ⌊min (127 : ℝ)
      (max 0 (whereFinite (hz_to_midi_val (.fin (1 / 1000000)))))⌋ = 0 := by
  have h1 : hz_to_midi_val (.fin (1 / 1000000)) =
      .fin (12 * (Real.logb 2 (1 / 1000000) - Real.logb 2 440) + 69) := by
    simp [hz_to_midi_val]
  rw [h1]
  show ⌊min (127 : ℝ)
    (max 0 (12 * (Real.logb 2 (1 / 1000000) - Real.logb 2 440) + 69))⌋ = 0
  rw [max_eq_left hzToMidi_eps_nonpos, min_eq_right (by norm_num : (0:ℝ) ≤ 127)]
  exact Int.floor_zero

theorem f0ToMidiOne_fin_zero : f0ToMidiOne (.fin 0) = 0 := by
  unfold f0ToMidiOne
  have h : rmaxC (1 / 1000000) (.fin 0) = .fin (1 / 1000000) := by
    simp [rmaxC, max_eq_left (by norm_num : (0:ℝ) ≤ 1 / 1000000)]
  rw [h]
  exact f0ToMidiOne_eps

theorem f0ToMidiOne_nonfinite (v : RFloat) (h : v.isFiniteB = false) :
    f0ToMidiOne v = 0 := by
  cases v with
  | fin x => simp [RFloat.isFiniteB] at h
  | nan =>
    unfold f0ToMidiOne
    show ⌊min (127 : ℝ) (max 0 (whereFinite (hz_to_midi_val .nan)))⌋ = 0
    rw [show hz_to_midi_val RFloat.nan = .nan from rfl]
    show ⌊min (127 : ℝ) (max 0 0)⌋ = 0
    rw [max_self, min_eq_right (by norm_num : (0:ℝ) ≤ 127)]
    exact Int.floor_zero
  | inf =>
    unfold f0ToMidiOne
    show ⌊min (127 : ℝ) (max 0 (whereFinite (hz_to_midi_val .inf)))⌋ = 0
    rw [show hz_to_midi_val RFloat.inf = .inf from rfl]
    show ⌊min (127 : ℝ) (max 0 0)⌋ = 0
    rw [max_self, min_eq_right (by norm_num : (0:ℝ) ≤ 127)]
    exact Int.floor_zero
  | ninf =>
    unfold f0ToMidiOne
    show ⌊min (127 : ℝ)
      (max 0 (whereFinite (hz_to_midi_val (rmaxC (1 / 1000000) .ninf))))⌋ = 0
    rw [show rmaxC (1 / 1000000) RFloat.ninf = .fin (1 / 1000000) from rfl]
    exact f0ToMidiOne_eps

/-- Claim C8: `f0_to_midi` returns a list of the same length as its input,
every output lies in `[0, 127]`, and an input frequency equal to 0 or
non-finite maps to pitch 0 — on the success path via the clip of the
hugely negative midi value of the substituted 1e-6 Hz (for 0 and -inf) or
via the `np.where(np.isfinite, ..., 0)` replacement (for NaN and +inf), and
on the exception path because every output is 0. -/
theorem f0_to_midi_clip_spec (ok : Bool) (l : List RFloat) :
    (f0_to_midi ok l).length = l.length ∧
    (∀ m ∈ f0_to_midi ok l, 0 ≤ m ∧ m ≤ 127) ∧
    (∀ i, (l.get? i = some (.fin 0) ∨
        ∃ v, l.get? i = some v ∧ v.isFiniteB = false) →
      (f0_to_midi ok l).get? i = some 0) := by
  have hrep : f0_to_midi ok l =
      if ok then l.map f0ToMidiOne else l.map fun _ => (0 : ℤ) := by
    cases l with
    | nil => simp [f0_to_midi]
    | cons x xs => rfl
  rw [hrep]
  cases ok with
  | false =>
    refine ⟨by simp, ?_, ?_⟩
    · intro m hm
      rw [if_neg (by simp)] at hm
      obtain ⟨v, _, rfl⟩ := List.mem_map.mp hm
      norm_num
    · intro i hi
      rw [if_neg (by simp), List.get?_map]
      rcases hi with h | ⟨v, hv, _⟩
      · rw [h]; rfl
      · rw [hv]; rfl
  | true =>
    refine ⟨by simp, ?_, ?_⟩
    · intro m hm
      rw [if_pos rfl] at hm
      obtain ⟨v, _, rfl⟩ := List.mem_map.mp hm
      exact f0ToMidiOne_bounds v
    · intro i hi
      rw [if_pos rfl, List.get?_map]
      rcases hi with h | ⟨v, hv, hfin⟩
      · rw [h]
        simp [f0ToMidiOne_fin_zero]
      · rw [hv]
        simp [f0ToMidiOne_nonfinite v hfin]

/-- Witness for C8 at the list `[0 Hz, NaN]` on the success path: both
entries map to pitch 0. -/
theorem f0_to_midi_clip_spec_witness :
    (f0_to_midi true [RFloat.fin 0, RFloat.nan]).get? 0 = some 0 ∧
    (f0_to_midi true [RFloat.fin 0, RFloat.nan]).get? 1 = some 0 :=
  ⟨(f0_to_midi_clip_spec true [RFloat.fin 0, RFloat.nan]).2.2 0 (Or.inl rfl),
    (f0_to_midi_clip_spec true [RFloat.fin 0, RFloat.nan]).2.2 1
      (Or.inr ⟨RFloat.nan, rfl, rfl⟩)⟩

theorem okFrom_sorted (l : List (ℚ × ℚ)) : ∀ cur : ℚ, okFrom cur l = true →
    (∀ p ∈ l, (0 : ℚ) ≤ p.2) →
    l.Sorted (fun p q : ℚ × ℚ => p.1 ≤ q.1) ∧ ∀ p ∈ l, cur ≤ p.1 := by
  induction l with
  | nil => intro cur _ _; simp
  | cons hd tl ih =>
    obtain ⟨o, d⟩ := hd
    intro cur hok h0
    rw [okFrom, Bool.and_eq_true, decide_eq_true_eq] at hok
    have h0tl : ∀ p ∈ tl, (0 : ℚ) ≤ p.2 := fun p hp =>
      h0 p (List.mem_cons_of_mem _ hp)
    have hdnn : (0 : ℚ) ≤ d := h0 (o, d) (List.mem_cons_self _ _)
    obtain ⟨hsort, hge⟩ := ih (o + d) hok.2 h0tl
    have hoall : ∀ p ∈ tl, o ≤ p.1 := fun p hp =>
      le_trans (le_add_of_nonneg_right hdnn) (hge p hp)
    refine ⟨List.sorted_cons.mpr ⟨hoall, hsort⟩, ?_⟩
    intro p hp
    rcases List.mem_cons.mp hp with rfl | hp
    · exact hok.1
    · exact le_trans hok.1 (hoall p hp)

theorem restLoop_spec (l : List (ℚ × ℚ)) : ∀ cur : ℚ, okFrom cur l = true →
    (∀ p ∈ l, (0 : ℚ) ≤ p.2) →
    contiguousFrom cur (restLoop l cur).1 = true ∧
    (restLoop l cur).2 = endAfter cur l ∧
    cur ≤ (restLoop l cur).2 ∧
    endAfter cur (restLoop l cur).1 = (restLoop l cur).2 := by
  induction l with
  | nil => intro cur _ _; simp [restLoop, contiguousFrom, endAfter]
  | cons hd tl ih =>
    obtain ⟨o, d⟩ := hd
    intro cur hok h0
    rw [okFrom, Bool.and_eq_true, decide_eq_true_eq] at hok
    have h0tl : ∀ p ∈ tl, (0 : ℚ) ≤ p.2 := fun p hp =>
      h0 p (List.mem_cons_of_mem _ hp)
    have hdnn : (0 : ℚ) ≤ d := h0 (o, d) (List.mem_cons_self _ _)
    obtain ⟨ih1, ih2, ih3, ih4⟩ := ih (o + d) hok.2 h0tl
    by_cases hc : cur < o
    · simp only [restLoop, if_pos hc]
      have hco : cur + (o - cur) = o := by ring
      refine ⟨?_, ?_, ?_, ?_⟩
      · simp [contiguousFrom, hco, ih1]
      · simpa [endAfter] using ih2
      · exact le_trans (le_of_lt hc)
          (le_trans (le_add_of_nonneg_right hdnn) ih3)
      · simpa [endAfter] using ih4
    · have ho : o = cur := le_antisymm (not_lt.mp hc) hok.1
      simp only [restLoop, if_neg hc]
      refine ⟨?_, ?_, ?_, ?_⟩
      · simp only [contiguousFrom, Bool.and_eq_true, decide_eq_true_eq]
        exact ⟨ho, ih1⟩
      · simpa [endAfter] using ih2
      · exact le_trans (hok.1.trans (le_add_of_nonneg_right hdnn)) ih3
      · simpa [endAfter] using ih4

theorem contiguousFrom_append (l : List (ℚ × ℚ)) : ∀ (t : List (ℚ × ℚ))
    (cur : ℚ), contiguousFrom cur (l ++ t) =
      (contiguousFrom cur l && contiguousFrom (endAfter cur l) t) := by
  induction l with
  | nil => intro t cur; simp [contiguousFrom, endAfter]
  | cons hd tl ih =>
    obtain ⟨o, d⟩ := hd
    intro t cur
    simp [contiguousFrom, endAfter, ih, Bool.and_assoc]

theorem endAfter_append (l : List (ℚ × ℚ)) : ∀ (t : List (ℚ × ℚ)) (cur : ℚ),
    endAfter cur (l ++ t) = endAfter (endAfter cur l) t := by
  induction l with
  | nil => intro t cur; simp [endAfter]
  | cons hd tl ih =>
    obtain ⟨o, d⟩ := hd
    intro t cur
    simp [endAfter, ih]

theorem restLoop_ne_nil (l : List (ℚ × ℚ)) (cur : ℚ) (h : l ≠ []) :
    (restLoop l cur).1 ≠ [] := by
  cases l with
  | nil => exact absurd rfl h
  | cons hd tl =>
    obtain ⟨o, d⟩ := hd
    simp only [restLoop]
    split <;> simp

theorem map_fst_snd_zip (l : List (ℚ × ℚ)) :
    (l.map Prod.fst).zip (l.map Prod.snd) = l := by
  induction l with
  | nil => rfl
  | cons hd tl ih => simp [List.zip_cons_cons, ih]

theorem fillRests_spec (evs : List (ℚ × ℚ)) (total : ℚ)
    (hok : okFrom 0 evs = true) (hd0 : ∀ p ∈ evs, (0 : ℚ) ≤ p.2)
    (hle : endAfter 0 evs ≤ total) (hne : evs ≠ []) :
    contiguousFrom 0 (fillRests evs total) = true ∧
    endAfter 0 (fillRests evs total) = total ∧
    fillRests evs total ≠ [] := by
  obtain ⟨hr1, hr2, hr3, hr4⟩ := restLoop_spec evs 0 hok hd0
  unfold fillRests
  by_cases hlt : (restLoop evs 0).2 < total
  · rw [if_pos hlt]
    refine ⟨?_, ?_, by simp⟩
    · rw [contiguousFrom_append, hr1, hr4]
      simp [contiguousFrom]
    · rw [endAfter_append, hr4]
      simp [endAfter]
  · rw [if_neg hlt]
    have heq : (restLoop evs 0).2 = total :=
      le_antisymm (hr2 ▸ hle) (not_lt.mp hlt)
    exact ⟨hr1, by rw [hr4, heq], restLoop_ne_nil evs 0 hne⟩

/-- Claim C10: `insert_rests` on empty onset/duration arrays returns exactly
one event `(0, total_duration)` — including `total_duration = 0`, where the
one event has zero duration; and for sorted, non-overlapping events with
non-negative durations lying inside `[0, total_duration]`, the output starts
at onset 0, each event starts exactly where the previous one ends, and the
last event ends exactly at `total_duration`. -/
theorem insert_rests_spec :
    (∀ total : ℚ, insert_rests [] [] total = ([0], [total])) ∧
    (∀ (onsets durs : List ℚ) (total : ℚ),
      onsets ≠ [] → onsets.length = durs.length →
      (∀ d ∈ durs, (0 : ℚ) ≤ d) →
      okFrom 0 (onsets.zip durs) = true →
      endAfter 0 (onsets.zip durs) ≤ total →
      contiguousFrom 0 ((insert_rests onsets durs total).1.zip
        (insert_rests onsets durs total).2) = true ∧
      endAfter 0 ((insert_rests onsets durs total).1.zip
        (insert_rests onsets durs total).2) = total ∧
      (insert_rests onsets durs total).1 ≠ []) := by
  constructor
  · intro total
    simp [insert_rests]
  · intro onsets durs total hne hlen hd0 hok hle
    have hd0e : ∀ p ∈ onsets.zip durs, (0 : ℚ) ≤ p.2 := fun p hp =>
      hd0 p.2 (List.of_mem_zip hp).2
    have hsorteq : List.insertionSort (fun p q : ℚ × ℚ => p.1 ≤ q.1)
        (onsets.zip durs) = onsets.zip durs :=
      List.Sorted.insertionSort_eq (okFrom_sorted (onsets.zip durs) 0 hok hd0e).1
    have hevne : onsets.zip durs ≠ [] := by
      cases onsets with
      | nil => exact absurd rfl hne
      | cons a as =>
        cases durs with
        | nil => simp at hlen
        | cons b bs => simp [List.zip_cons_cons]
    obtain ⟨hf1, hf2, hf3⟩ :=
      fillRests_spec (onsets.zip durs) total hok hd0e hle hevne
    have hir : insert_rests onsets durs total =
        ((fillRests (onsets.zip durs) total).map Prod.fst,
          (fillRests (onsets.zip durs) total).map Prod.snd) := by
      simp only [insert_rests, if_neg hne, hsorteq]
    rw [hir]
    refine ⟨?_, ?_, ?_⟩
    · rw [map_fst_snd_zip]
      exact hf1
    · rw [map_fst_snd_zip]
      exact hf2
    · simpa using hf3

/-- Witness for C10: the empty input with total duration 0 gives the single
zero-duration event, and the sorted non-overlapping events `(1, 1)` and
`(2, 3)` with total duration 6 give a contiguous output covering `[0, 6]`. -/
theorem insert_rests_spec_witness :
    ([(1 : ℚ), 2] ≠ []) ∧
    insert_rests [] [] 0 = ([0], [0]) ∧
    (contiguousFrom 0 ((insert_rests [1, 2] [1, 3] 6).1.zip
        (insert_rests [1, 2] [1, 3] 6).2) = true ∧
      endAfter 0 ((insert_rests [1, 2] [1, 3] 6).1.zip
        (insert_rests [1, 2] [1, 3] 6).2) = 6 ∧
      (insert_rests [1, 2] [1, 3] 6).1 ≠ []) := by
  refine ⟨by simp, insert_rests_spec.1 0, ?_⟩
  refine insert_rests_spec.2 [1, 2] [1, 3] 6 (by simp) rfl ?_ ?_ ?_
  · intro d hd
    rcases List.mem_cons.mp hd with rfl | hd
    · norm_num
    · rcases List.mem_cons.mp hd with rfl | hd
      · norm_num
      · simp at hd
  · norm_num [List.zip_cons_cons, okFrom]
  · norm_num [List.zip_cons_cons, endAfter]
